import Mathlib

/-!
Shallow embedding of `landtree.py` (land-ownership tree CLI) and proofs of the
specification claims about it.

The Python dictionaries are embedded as insertion-ordered association lists
over `String` keys; `dict[k]` lookups that may raise `KeyError` become
`Option`-valued lookups, and raised exceptions become `Except` errors.  The
two recursions of the source (`get_root_company_id` and `_format_node`) are
given an explicit fuel argument: `none` means the recursion did not finish
within the given fuel (the Python program would still be running, or would
have overflowed its stack), `some (Except.error e)` means the Python code
raised, and `some (Except.ok v)` means it returned `v`.
-/

namespace Landtree

/-- Company node of the ownership graph (`class Company` in the source):
`id`, `parent_id` (absent means top-level), `name` (absent while the company
has only been referenced as a parent), and the ordered `children_ids`. -/
structure Company where
  id : String
  parent_id : Option String
  name : Option String
  children_ids : List String
deriving DecidableEq, Repr

/-- One relation record `(company_id, name, parent)` as read from the
company-relations CSV. -/
structure CompanyRelation where
  company_id : String
  name : String
  parent : String
deriving DecidableEq, Repr

/-- The `parent_id` property setter of `Company`: `""` (and `None`) are
normalized to absent, any other string is kept. -/
def normParent (s : String) : Option String :=
  if s = "" then none else some s

/-- Association-list model of a Python `dict` with `String` keys:
`lookup m k` is `m[k]` (with `none` for `KeyError`). -/
def lookup {α : Type} : List (String × α) → String → Option α
  | [], _ => none
  | (k, v) :: rest, key => if k = key then some v else lookup rest key

/-- Association-list model of `m[key] = v`: replace the value at the first
occurrence of `key`, or append the binding if `key` is absent. -/
def setKey {α : Type} : List (String × α) → String → α → List (String × α)
  | [], key, v => [(key, v)]
  | (k, w) :: rest, key, v =>
      if k = key then (k, v) :: rest else (k, w) :: setKey rest key v

/-- The key list of an association-list map. -/
def keys {α : Type} : List (String × α) → List String
  | [] => []
  | (k, _) :: rest => k :: keys rest

/-- The company graph: mapping `company_id ↦ Company`. -/
abbrev Graph := List (String × Company)

/-- The ownership index: mapping `company_id ↦ [land_id, ...]`. -/
abbrev LandIndex := List (String × List String)

/-- Parent-handling half of one loop iteration of `get_company_relations`:
look up the record's parent; if absent and the parent id is non-empty, create
a fresh parent node with the current company as its only child; if present,
append the current company to the parent's children. -/
def applyParent (result : Graph) (r : CompanyRelation) : Graph :=
  match lookup result r.parent with
  | none =>
      if r.parent = "" then result
      else setKey result r.parent ⟨r.parent, none, none, [r.company_id]⟩
  | some parent =>
      setKey result r.parent
        { parent with children_ids := parent.children_ids ++ [r.company_id] }

/-- Subject-handling half of one loop iteration of `get_company_relations`:
look up the record's own company; if absent, create it from the record (with
the parent id normalized by the `parent_id` setter); if present (it was
referenced as a parent earlier), overwrite its `name` and `parent_id`. -/
def applyChild (result : Graph) (r : CompanyRelation) : Graph :=
  match lookup result r.company_id with
  | none =>
      setKey result r.company_id
        ⟨r.company_id, normParent r.parent, some r.name, []⟩
  | some company =>
      setKey result r.company_id
        { company with name := some r.name, parent_id := normParent r.parent }

/-- One full loop iteration of `get_company_relations`. -/
def processRelation (result : Graph) (r : CompanyRelation) : Graph :=
  applyChild (applyParent result r) r

/-- The Relation Graph Builder `get_company_relations`, applied to the record
stream already decoded from CSV (header discarded). -/
def get_company_relations (records : List CompanyRelation) : Graph :=
  records.foldl processRelation []

/-- Every stored company's `parent_id` went through the normalizing setter:
it is never literally `some ""`. -/
def GoodParents (g : Graph) : Prop :=
  ∀ k c, lookup g k = some c → c.parent_id ≠ some ""

/-- Every identifier stored in some node's `children_ids` is itself a key of
the graph. -/
def ChildrenClosed (g : Graph) : Prop :=
  ∀ k c, lookup g k = some c → ∀ x ∈ c.children_ids, x ∈ keys g

/-- Ids of the companies whose relation records name `X` as their parent, in
stream order. -/
def namedChildren (X : String) (records : List CompanyRelation) : List String :=
  (records.filter (fun q => q.parent = X)).map (fun q => q.company_id)

/-- Error taxonomy of the spec: `UnknownCompanyError` abstracts the `KeyError`
of a graph lookup, `MalformedRecordError` a record-arity mismatch. -/
inductive LandErr where
  | unknownCompany (id : String)
  | malformedRecord
deriving DecidableEq, Repr

/-- The Root Resolver `get_root_company_id`, with explicit recursion fuel:
`none` means the recursion did not finish within `fuel` steps. -/
def get_root_company_id (companies : Graph) : Nat → String → Option (Except LandErr String)
  | 0, _ => none
  | fuel + 1, company_id =>
    match lookup companies company_id with
    | none => some (Except.error (LandErr.unknownCompany company_id))
    | some company =>
      match company.parent_id with
      | some pid => get_root_company_id companies fuel pid
      | none => some (Except.ok company_id)

/-- Acyclicity of the parent links, witnessed by a measure that strictly
decreases along every stored parent edge (so every chain of parent links is
finite). -/
def ParentMeasureDecreases (g : Graph) (m : String → Nat) : Prop :=
  ∀ k c pid, lookup g k = some c → c.parent_id = some pid → m pid < m k

/-- Python rendering of the optional company name in an f-string: an absent
name prints as `None`. -/
def optName : Option String → String
  | none => "None"
  | some s => s

/-- Python string repetition `n * s`. -/
def strRepeat : Nat → String → String
  | 0, _ => ""
  | n + 1, s => s ++ strRepeat n s

/-- Concatenation of a list of strings in order. -/
def strConcat : List String → String
  | [] => ""
  | s :: rest => s ++ strConcat rest

/-- Direct parcel count of a company: `len(company_land.get(cid, []))`. -/
def directParcels (company_land : LandIndex) (cid : String) : Nat :=
  ((lookup company_land cid).getD []).length

/-- Result of one formatter call: `none` is fuel exhaustion (the Python
recursion still running), an error is a raised exception, `ok` carries the
pair (formatted block, aggregate parcel total) that `_format_node` returns. -/
abbrev FmtResult := Option (Except LandErr (String × Nat))

/-- The recursive formatter `_format_node`, with explicit fuel.  For each node
it folds over `children_ids` accumulating output (in order) and the parcel
total seeded with the node's direct count, then emits its own line, built from
the indent, the node's stored id and name, and the aggregate total, in front
of the children's output. -/
def format_node (tree : Graph) (company_land : LandIndex) (target_company_id : String) :
    Nat → String → Nat → FmtResult
  | 0, _, _ => none
  | fuel + 1, root_company_id, level =>
    match lookup tree root_company_id with
    | none => some (Except.error (LandErr.unknownCompany root_company_id))
    | some company =>
      match company.children_ids.foldl
          (fun acc child_id =>
            match acc with
            | some (Except.ok (out, tot)) =>
              match format_node tree company_land target_company_id fuel child_id (level + 1) with
              | some (Except.ok p) => some (Except.ok (out ++ p.1, tot + p.2))
              | other => other
            | other => other)
          (some (Except.ok ("", directParcels company_land root_company_id))) with
      | some (Except.ok (output, total_parcels)) =>
          some (Except.ok
            ((if level = 0 then "" else strRepeat level "| " ++ "- ") ++
              company.id ++ "; " ++ optName company.name ++ "; owner of " ++
              toString total_parcels ++ " land parcels" ++ "\n" ++ output,
             total_parcels))
      | other => other

/-- The child-accumulation step of `_format_node`'s loop, as a named function
(definitionally equal to the lambda inside `format_node`). -/
def childFold (tree : Graph) (company_land : LandIndex) (target_company_id : String)
    (fuel level : Nat) (acc : FmtResult) (child_id : String) : FmtResult :=
  match acc with
  | some (Except.ok (out, tot)) =>
    match format_node tree company_land target_company_id fuel child_id level with
    | some (Except.ok p) => some (Except.ok (out ++ p.1, tot + p.2))
    | other => other
  | other => other

/-- The Tree Formatter `format_tree`: formats the subtree under
`root_company_id` and returns only the output string. -/
def format_tree (tree : Graph) (company_land : LandIndex)
    (root_company_id target_company_id : String) (fuel : Nat) :
    Option (Except LandErr String) :=
  (format_node tree company_land target_company_id fuel root_company_id 0).map
    (Except.map Prod.fst)

/-- Sequence a list of optional values: `some` of the list of values if every
entry is `some`, otherwise `none`. -/
def seqOption {α : Type} : List (Option α) → Option (List α)
  | [] => some []
  | o :: os =>
    match o, seqOption os with
    | some a, some rest => some (a :: rest)
    | _, _ => none

/-- Spec-side definition, following the spec's words: the aggregate parcel
total of a node is its direct parcel count (from the ownership index, zero if
absent) plus the sum of the totals of all of its children's subtrees, computed
recursively over `children_ids` (fuel-bounded like the formatter). -/
def specSubtreeTotal (tree : Graph) (company_land : LandIndex) : Nat → String → Option Nat
  | 0, _ => none
  | fuel + 1, cid =>
    match lookup tree cid with
    | none => none
    | some c =>
      match seqOption (c.children_ids.map
          (fun k => specSubtreeTotal tree company_land fuel k)) with
      | none => none
      | some childTotals =>
          some (directParcels company_land cid + childTotals.sum)

/-- Spec-side definition of one output line: no indent prefix at depth 0, at
depth `d ≥ 1` the prefix is `d` repetitions of `"| "` followed by `"- "`; the
line reads `"{id}; {name}; owner of {total} land parcels"` and is followed by
a newline. -/
def specLine (c : Company) (depth total : Nat) : String :=
  (if depth = 0 then "" else strRepeat depth "| " ++ "- ") ++
    c.id ++ "; " ++ optName c.name ++ "; owner of " ++ toString total ++
    " land parcels" ++ "\n"

/-- Spec-side definition of a node's formatted block: the node's own line,
showing its subtree total, followed by the concatenation of its children's
full blocks in `children_ids` order, one depth deeper. -/
def specBlock (tree : Graph) (company_land : LandIndex) : Nat → String → Nat → Option String
  | 0, _, _ => none
  | fuel + 1, cid, depth =>
    match lookup tree cid, specSubtreeTotal tree company_land (fuel + 1) cid with
    | some c, some total =>
      match seqOption (c.children_ids.map
          (fun k => specBlock tree company_land fuel k (depth + 1))) with
      | some blocks => some (specLine c depth total ++ strConcat blocks)
      | none => none
    | _, _ => none

/-- The Record Reader `read_csv` over already-split CSV lines (the header
line has been discarded by the caller): each line is turned positionally into
a fixed-arity record; a line whose field count does not match the shape's
arity fails with `MalformedRecordError` at the point of record construction,
and field contents are not inspected. -/
def read_csv (arity : Nat) : List (List String) → Except LandErr (List (List String))
  | [] => Except.ok []
  | l :: ls =>
    if l.length = arity then
      match read_csv arity ls with
      | Except.ok rs => Except.ok (l :: rs)
      | Except.error e => Except.error e
    else Except.error LandErr.malformedRecord

theorem lookup_setKey {α : Type} (m : List (String × α)) (key : String) (v : α)
    (k' : String) :
    lookup (setKey m key v) k' = if key = k' then some v else lookup m k' := by
  induction m with
  | nil =>
      by_cases h : key = k' <;> simp [setKey, lookup, h]
  | cons p rest ih =>
      obtain ⟨k, w⟩ := p
      by_cases hk : k = key
      · subst hk
        by_cases h : k = k' <;> simp [setKey, lookup, h]
      · by_cases h : k = k'
        · subst h
          have : ¬ key = k := fun hh => hk hh.symm
          simp [setKey, hk, lookup, this]
        · simp [setKey, hk, lookup, h, ih]

theorem mem_keys_setKey {α : Type} (m : List (String × α)) (key : String) (v : α)
    (k' : String) :
    k' ∈ keys (setKey m key v) ↔ k' = key ∨ k' ∈ keys m := by
  induction m with
  | nil => simp [setKey, keys]
  | cons p rest ih =>
      obtain ⟨k, w⟩ := p
      by_cases hk : k = key
      · subst hk
        simp [setKey, keys]
        try tauto
      · simp [setKey, hk, keys, ih]
        try tauto

theorem lookup_eq_none_iff {α : Type} (m : List (String × α)) (k : String) :
    lookup m k = none ↔ k ∉ keys m := by
  induction m with
  | nil => simp [lookup, keys]
  | cons p rest ih =>
      obtain ⟨k', v⟩ := p
      by_cases h : k' = k
      · subst h
        simp [lookup, keys]
      · have h' : ¬ k = k' := fun hh => h hh.symm
        simp [lookup, keys, h, h', ih]

theorem lookup_isSome_iff_mem_keys {α : Type} (m : List (String × α)) (k : String) :
    (lookup m k).isSome ↔ k ∈ keys m := by
  rcases h : lookup m k with _ | v
  · simp [(lookup_eq_none_iff m k).mp h]
  · have : k ∈ keys m := by
      by_contra hk
      rw [← lookup_eq_none_iff m k] at hk
      rw [h] at hk
      cases hk
    simp [this]

theorem mem_keys_applyParent (g : Graph) (r : CompanyRelation) (k : String) :
    k ∈ keys (applyParent g r) ↔ k ∈ keys g ∨ (k = r.parent ∧ r.parent ≠ "") := by
  cases hp : lookup g r.parent with
  | none =>
      simp only [applyParent, hp]
      by_cases he : r.parent = ""
      · simp [he]
      · simp only [if_neg he, mem_keys_setKey]
        constructor
        · rintro (h | h)
          · exact Or.inr ⟨h, he⟩
          · exact Or.inl h
        · rintro (h | ⟨h, _⟩)
          · exact Or.inr h
          · exact Or.inl h
  | some parent =>
      have hmem : r.parent ∈ keys g := by
        rw [← lookup_isSome_iff_mem_keys]
        simp [hp]
      simp only [applyParent, hp, mem_keys_setKey]
      constructor
      · rintro (h | h)
        · exact Or.inl (h ▸ hmem)
        · exact Or.inl h
      · rintro (h | ⟨h, _⟩)
        · exact Or.inr h
        · exact Or.inl h

theorem mem_keys_applyChild (g : Graph) (r : CompanyRelation) (k : String) :
    k ∈ keys (applyChild g r) ↔ k = r.company_id ∨ k ∈ keys g := by
  cases hc : lookup g r.company_id with
  | none => simp [applyChild, hc, mem_keys_setKey]
  | some company => simp [applyChild, hc, mem_keys_setKey]

theorem mem_keys_processRelation (g : Graph) (r : CompanyRelation) (k : String) :
    k ∈ keys (processRelation g r) ↔
      k ∈ keys g ∨ k = r.company_id ∨ (k = r.parent ∧ r.parent ≠ "") := by
  rw [processRelation, mem_keys_applyChild, mem_keys_applyParent]
  tauto

theorem mem_keys_foldl (records : List CompanyRelation) (g : Graph) (k : String) :
    k ∈ keys (records.foldl processRelation g) ↔
      k ∈ keys g ∨ ∃ r ∈ records, k = r.company_id ∨ (k = r.parent ∧ r.parent ≠ "") := by
  induction records generalizing g with
  | nil => simp
  | cons r rs ih =>
      rw [List.foldl_cons, ih, mem_keys_processRelation]
      simp only [List.mem_cons]
      constructor
      · rintro ((h | h) | ⟨q, hq, hP⟩)
        · exact Or.inl h
        · exact Or.inr ⟨r, Or.inl rfl, h⟩
        · exact Or.inr ⟨q, Or.inr hq, hP⟩
      · rintro (h | ⟨q, (rfl | hq), hP⟩)
        · exact Or.inl (Or.inl h)
        · exact Or.inl (Or.inr hP)
        · exact Or.inr ⟨q, hq, hP⟩

theorem mem_keys_get_company_relations (records : List CompanyRelation) (k : String) :
    k ∈ keys (get_company_relations records) ↔
      ∃ r ∈ records, k = r.company_id ∨ (k = r.parent ∧ r.parent ≠ "") := by
  rw [get_company_relations, mem_keys_foldl]
  simp [keys]

theorem normParent_ne_empty (s : String) : normParent s ≠ some "" := by
  by_cases h : s = "" <;> simp [normParent, h]

theorem goodParents_applyParent (g : Graph) (r : CompanyRelation)
    (hg : GoodParents g) : GoodParents (applyParent g r) := by
  intro k c hc
  cases hp : lookup g r.parent with
  | none =>
      by_cases he : r.parent = ""
      · rw [applyParent, hp, if_pos he] at hc
        exact hg k c hc
      · rw [applyParent, hp, if_neg he, lookup_setKey] at hc
        by_cases hk : r.parent = k
        · rw [if_pos hk] at hc
          injection hc with hc
          rw [← hc]
          simp
        · rw [if_neg hk] at hc
          exact hg k c hc
  | some parent =>
      rw [applyParent, hp, lookup_setKey] at hc
      by_cases hk : r.parent = k
      · rw [if_pos hk] at hc
        injection hc with hc
        rw [← hc]
        exact hg r.parent parent hp
      · rw [if_neg hk] at hc
        exact hg k c hc

theorem goodParents_processRelation (g : Graph) (r : CompanyRelation)
    (hg : GoodParents g) : GoodParents (processRelation g r) := by
  intro k c hc
  have hg1 := goodParents_applyParent g r hg
  rw [processRelation] at hc
  cases hcc : lookup (applyParent g r) r.company_id with
  | none =>
      rw [applyChild, hcc, lookup_setKey] at hc
      by_cases hk : r.company_id = k
      · rw [if_pos hk] at hc
        injection hc with hc
        rw [← hc]
        exact normParent_ne_empty r.parent
      · rw [if_neg hk] at hc
        exact hg1 k c hc
  | some company =>
      rw [applyChild, hcc, lookup_setKey] at hc
      by_cases hk : r.company_id = k
      · rw [if_pos hk] at hc
        injection hc with hc
        rw [← hc]
        exact normParent_ne_empty r.parent
      · rw [if_neg hk] at hc
        exact hg1 k c hc

theorem goodParents_get_company_relations (records : List CompanyRelation) :
    GoodParents (get_company_relations records) := by
  rw [get_company_relations]
  have h : ∀ g : Graph, GoodParents g → GoodParents (records.foldl processRelation g) := by
    induction records with
    | nil => exact fun g hg => hg
    | cons r rs ih =>
        intro g hg
        exact ih (processRelation g r) (goodParents_processRelation g r hg)
  exact h [] (fun k c hc => by cases hc)

theorem children_applyParent (g : Graph) (r : CompanyRelation)
    (hg : ChildrenClosed g) (k : String) (c : Company)
    (hc : lookup (applyParent g r) k = some c) :
    ∀ x ∈ c.children_ids, x ∈ keys g ∨ x = r.company_id := by
  intro x hx
  cases hp : lookup g r.parent with
  | none =>
      rw [applyParent, hp] at hc
      by_cases he : r.parent = ""
      · rw [if_pos he] at hc
        exact Or.inl (hg k c hc x hx)
      · rw [if_neg he, lookup_setKey] at hc
        by_cases hk : r.parent = k
        · rw [if_pos hk] at hc
          injection hc with hc
          rw [← hc] at hx
          simp at hx
          exact Or.inr hx
        · rw [if_neg hk] at hc
          exact Or.inl (hg k c hc x hx)
  | some parent =>
      rw [applyParent, hp, lookup_setKey] at hc
      by_cases hk : r.parent = k
      · rw [if_pos hk] at hc
        injection hc with hc
        rw [← hc] at hx
        simp only [List.mem_append] at hx
        rcases hx with hx | hx
        · exact Or.inl (hg r.parent parent hp x hx)
        · simp at hx
          exact Or.inr hx
      · rw [if_neg hk] at hc
        exact Or.inl (hg k c hc x hx)

theorem childrenClosed_processRelation (g : Graph) (r : CompanyRelation)
    (hg : ChildrenClosed g) : ChildrenClosed (processRelation g r) := by
  intro k c hc x hx
  have hsub : ∀ y, y ∈ keys g → y ∈ keys (processRelation g r) := by
    intro y hy
    rw [mem_keys_processRelation]
    exact Or.inl hy
  have hcid : r.company_id ∈ keys (processRelation g r) := by
    rw [mem_keys_processRelation]
    exact Or.inr (Or.inl rfl)
  rw [processRelation] at hc
  cases hcc : lookup (applyParent g r) r.company_id with
  | none =>
      rw [applyChild, hcc, lookup_setKey] at hc
      by_cases hk : r.company_id = k
      · rw [if_pos hk] at hc
        injection hc with hc
        rw [← hc] at hx
        simp at hx
      · rw [if_neg hk] at hc
        rcases children_applyParent g r hg k c hc x hx with h | h
        · exact hsub x h
        · rw [h]
          exact hcid
  | some company =>
      rw [applyChild, hcc, lookup_setKey] at hc
      by_cases hk : r.company_id = k
      · rw [if_pos hk] at hc
        injection hc with hc
        have hx' : x ∈ company.children_ids := by
          rw [← hc] at hx
          exact hx
        rcases children_applyParent g r hg r.company_id company hcc x hx' with h | h
        · exact hsub x h
        · rw [h]
          exact hcid
      · rw [if_neg hk] at hc
        rcases children_applyParent g r hg k c hc x hx with h | h
        · exact hsub x h
        · rw [h]
          exact hcid

theorem childrenClosed_get_company_relations (records : List CompanyRelation) :
    ChildrenClosed (get_company_relations records) := by
  rw [get_company_relations]
  have h : ∀ g : Graph, ChildrenClosed g →
      ChildrenClosed (records.foldl processRelation g) := by
    induction records with
    | nil => exact fun g hg => hg
    | cons r rs ih =>
        exact fun g hg => ih (processRelation g r) (childrenClosed_processRelation g r hg)
  exact h [] (fun k c hc => by cases hc)

theorem lookup_applyChild_self (g : Graph) (r : CompanyRelation) :
    ∃ c, lookup (applyChild g r) r.company_id = some c ∧
      c.name = some r.name ∧ c.parent_id = normParent r.parent := by
  cases hc : lookup g r.company_id with
  | none =>
      refine ⟨⟨r.company_id, normParent r.parent, some r.name, []⟩, ?_, rfl, rfl⟩
      rw [applyChild, hc, lookup_setKey, if_pos rfl]
  | some company =>
      refine ⟨{ company with name := some r.name, parent_id := normParent r.parent },
        ?_, rfl, rfl⟩
      rw [applyChild, hc, lookup_setKey, if_pos rfl]

theorem lookup_applyChild_other (g : Graph) (r : CompanyRelation) (k : String)
    (hk : r.company_id ≠ k) : lookup (applyChild g r) k = lookup g k := by
  cases hc : lookup g r.company_id with
  | none => rw [applyChild, hc, lookup_setKey, if_neg hk]
  | some company => rw [applyChild, hc, lookup_setKey, if_neg hk]

theorem lookup_processRelation_self (g : Graph) (r : CompanyRelation) :
    ∃ c, lookup (processRelation g r) r.company_id = some c ∧
      c.name = some r.name ∧ c.parent_id = normParent r.parent :=
  lookup_applyChild_self (applyParent g r) r

theorem lookup_applyParent_preserves (g : Graph) (r : CompanyRelation) (k : String)
    (c : Company) (h : lookup g k = some c) :
    ∃ c', lookup (applyParent g r) k = some c' ∧
      c'.name = c.name ∧ c'.parent_id = c.parent_id := by
  cases hp : lookup g r.parent with
  | none =>
      by_cases he : r.parent = ""
      · exact ⟨c, by rw [applyParent, hp, if_pos he]; exact h, rfl, rfl⟩
      · by_cases hk : r.parent = k
        · rw [hk, h] at hp
          cases hp
        · exact ⟨c, by rw [applyParent, hp, if_neg he, lookup_setKey, if_neg hk]; exact h,
            rfl, rfl⟩
  | some parent =>
      by_cases hk : r.parent = k
      · have hpc : parent = c := by
          rw [hk, h] at hp
          exact (Option.some.inj hp).symm
        refine ⟨{ parent with children_ids := parent.children_ids ++ [r.company_id] },
          ?_, by rw [hpc], by rw [hpc]⟩
        rw [applyParent, hp, lookup_setKey, if_pos hk]
      · exact ⟨c, by rw [applyParent, hp, lookup_setKey, if_neg hk]; exact h, rfl, rfl⟩

theorem processRelation_preserves (g : Graph) (r : CompanyRelation) (k : String)
    (hk : r.company_id ≠ k) (c : Company) (h : lookup g k = some c) :
    ∃ c', lookup (processRelation g r) k = some c' ∧
      c'.name = c.name ∧ c'.parent_id = c.parent_id := by
  obtain ⟨c', h1, h2, h3⟩ := lookup_applyParent_preserves g r k c h
  refine ⟨c', ?_, h2, h3⟩
  rw [processRelation, lookup_applyChild_other _ _ _ hk]
  exact h1

theorem foldl_preserves_name_parent (records : List CompanyRelation) (X : String)
    (hX : ∀ q ∈ records, q.company_id ≠ X) :
    ∀ (g : Graph) (c : Company), lookup g X = some c →
      ∃ c', lookup (records.foldl processRelation g) X = some c' ∧
        c'.name = c.name ∧ c'.parent_id = c.parent_id := by
  induction records with
  | nil => exact fun g c h => ⟨c, h, rfl, rfl⟩
  | cons r rs ih =>
      intro g c h
      obtain ⟨c1, h1, hn1, hp1⟩ :=
        processRelation_preserves g r X (hX r (List.mem_cons_self r rs)) c h
      obtain ⟨c2, h2, hn2, hp2⟩ :=
        ih (fun q hq => hX q (List.mem_cons_of_mem r hq)) (processRelation g r) c1 h1
      exact ⟨c2, h2, by rw [hn2, hn1], by rw [hp2, hp1]⟩

theorem lookup_processRelation_phantom (g : Graph) (r : CompanyRelation) (X : String)
    (hne : X ≠ "") (hcid : r.company_id ≠ X) :
    lookup (processRelation g r) X =
      if r.parent = X then
        match lookup g X with
        | none => some ⟨X, none, none, [r.company_id]⟩
        | some c => some { c with children_ids := c.children_ids ++ [r.company_id] }
      else lookup g X := by
  rw [processRelation, lookup_applyChild_other _ _ _ hcid]
  by_cases hpX : r.parent = X
  · rw [if_pos hpX, ← hpX]
    cases hp : lookup g r.parent with
    | none =>
        have he : ¬ r.parent = "" := by
          rw [hpX]
          exact hne
        rw [applyParent, hp, if_neg he, lookup_setKey, if_pos rfl, hpX]
    | some c =>
        rw [applyParent, hp, lookup_setKey, if_pos rfl, hpX]
  · rw [if_neg hpX]
    cases hp : lookup g r.parent with
    | none =>
        by_cases he : r.parent = ""
        · rw [applyParent, hp, if_pos he]
        · rw [applyParent, hp, if_neg he, lookup_setKey, if_neg hpX]
    | some parent =>
        rw [applyParent, hp, lookup_setKey, if_neg hpX]

theorem foldl_phantom_some (records : List CompanyRelation) (X : String)
    (hne : X ≠ "") (hcid : ∀ q ∈ records, q.company_id ≠ X) :
    ∀ (g : Graph) (c0 : Company), lookup g X = some c0 →
      lookup (records.foldl processRelation g) X =
        some { c0 with children_ids := c0.children_ids ++ namedChildren X records } := by
  induction records with
  | nil =>
      intro g c0 h
      simp [namedChildren, h]
  | cons r rs ih =>
      intro g c0 h
      have hstep := lookup_processRelation_phantom g r X hne (hcid r (List.mem_cons_self r rs))
      have ihrs := ih (fun q hq => hcid q (List.mem_cons_of_mem r hq))
      by_cases hpX : r.parent = X
      · rw [if_pos hpX, h] at hstep
        rw [List.foldl_cons]
        rw [ihrs (processRelation g r)
          { c0 with children_ids := c0.children_ids ++ [r.company_id] } hstep]
        have : namedChildren X (r :: rs) = r.company_id :: namedChildren X rs := by
          simp [namedChildren, List.filter_cons, hpX]
        rw [this]
        simp
      · rw [if_neg hpX, h] at hstep
        rw [List.foldl_cons, ihrs (processRelation g r) c0 hstep]
        have : namedChildren X (r :: rs) = namedChildren X rs := by
          simp [namedChildren, List.filter_cons, hpX]
        rw [this]

theorem foldl_phantom_none (records : List CompanyRelation) (X : String)
    (hne : X ≠ "") (hcid : ∀ q ∈ records, q.company_id ≠ X) :
    ∀ g : Graph, lookup g X = none →
      lookup (records.foldl processRelation g) X =
        if namedChildren X records = [] then none
        else some ⟨X, none, none, namedChildren X records⟩ := by
  induction records with
  | nil =>
      intro g h
      simp [namedChildren, h]
  | cons r rs ih =>
      intro g h
      have hstep := lookup_processRelation_phantom g r X hne (hcid r (List.mem_cons_self r rs))
      by_cases hpX : r.parent = X
      · rw [if_pos hpX, h] at hstep
        have hnc : namedChildren X (r :: rs) = r.company_id :: namedChildren X rs := by
          simp [namedChildren, List.filter_cons, hpX]
        rw [List.foldl_cons]
        rw [foldl_phantom_some rs X hne (fun q hq => hcid q (List.mem_cons_of_mem r hq))
          (processRelation g r) ⟨X, none, none, [r.company_id]⟩ hstep]
        rw [hnc]
        simp
      · rw [if_neg hpX, h] at hstep
        have hnc : namedChildren X (r :: rs) = namedChildren X rs := by
          simp [namedChildren, List.filter_cons, hpX]
        rw [List.foldl_cons, ih (fun q hq => hcid q (List.mem_cons_of_mem r hq))
          (processRelation g r) hstep, hnc]

/-- Claim C3 counterexample: a relation record whose own `company_id` field is
the empty string does create a graph entry keyed by the empty string. -/
theorem claim_c3_counterexample :
    "" ∈ keys (get_company_relations [⟨"", "n", ""⟩]) := by
  decide

/-- Claim C3 (amended): provided every record's `company_id` is non-empty, no
key of the built graph is the empty string; moreover an empty parent field
never creates a graph entry for the parent, and `parent_id` writes normalize
the empty string to absent, so no stored company has `parent_id = some ""`. -/
theorem claim_c3_no_empty_keys (records : List CompanyRelation)
    (h : ∀ r ∈ records, r.company_id ≠ "") :
    "" ∉ keys (get_company_relations records) ∧
    ∀ k c, lookup (get_company_relations records) k = some c →
      c.parent_id ≠ some "" := by
  constructor
  · intro hmem
    rw [mem_keys_get_company_relations] at hmem
    obtain ⟨r, hr, hP⟩ := hmem
    rcases hP with h1 | ⟨h2, h3⟩
    · exact h r hr h1.symm
    · exact h3 h2.symm
  · exact fun k c hc => goodParents_get_company_relations records k c hc

/-- Witness for C3 (amended) on the single-record stream from the tests. -/
theorem claim_c3_witness :
    "" ∉ keys (get_company_relations [⟨"foo", "Bar Limited", ""⟩]) :=
  (claim_c3_no_empty_keys [⟨"foo", "Bar Limited", ""⟩] (by decide)).1

/-- Claim C10: the key set of the built graph consists exactly of the record
subjects together with the non-empty parent references, and every id stored in
any node's `children_ids` is itself a key of the graph. -/
theorem claim_c10_graph_key_set (records : List CompanyRelation) :
    (∀ k, k ∈ keys (get_company_relations records) ↔
        ∃ r ∈ records, k = r.company_id ∨ (k = r.parent ∧ r.parent ≠ "")) ∧
    (∀ k c, lookup (get_company_relations records) k = some c →
        ∀ x ∈ c.children_ids, x ∈ keys (get_company_relations records)) :=
  ⟨fun k => mem_keys_get_company_relations records k,
   fun k c hc x hx => childrenClosed_get_company_relations records k c hc x hx⟩

/-- Witness for C10 on a one-record stream with a forward parent reference. -/
theorem claim_c10_witness :
    "R1" ∈ keys (get_company_relations [⟨"C1", "N1", "R1"⟩]) ∧
    "C1" ∈ keys (get_company_relations [⟨"C1", "N1", "R1"⟩]) :=
  ⟨((claim_c10_graph_key_set [⟨"C1", "N1", "R1"⟩]).1 "R1").mpr
      ⟨⟨"C1", "N1", "R1"⟩, by decide, Or.inr ⟨rfl, by decide⟩⟩,
   (claim_c10_graph_key_set [⟨"C1", "N1", "R1"⟩]).2 "R1" ⟨"R1", none, none, ["C1"]⟩ rfl
      "C1" (by decide)⟩

/-- Claim C4: forward references. (a) If a company's own record `r` appears
and no later record is for the same company, the final node carries `r`'s name
and (normalized) parent. (b) A company referenced only as a parent ends up
with absent name, absent parent, and exactly the children that named it, in
stream order. -/
theorem claim_c4_forward_references (records : List CompanyRelation) :
    (∀ (pre : List CompanyRelation) (r : CompanyRelation) (post : List CompanyRelation),
        records = pre ++ r :: post →
        (∃ q ∈ pre, q.parent = r.company_id) →
        (∀ q ∈ post, q.company_id ≠ r.company_id) →
        ∃ c, lookup (get_company_relations records) r.company_id = some c ∧
          c.name = some r.name ∧ c.parent_id = normParent r.parent) ∧
    (∀ X : String, X ≠ "" →
        (∀ q ∈ records, q.company_id ≠ X) →
        (∃ q ∈ records, q.parent = X) →
        lookup (get_company_relations records) X =
          some ⟨X, none, none, namedChildren X records⟩) := by
  constructor
  · rintro pre r post rfl href hpost
    rw [get_company_relations, List.foldl_append, List.foldl_cons]
    obtain ⟨c1, h1, hn1, hp1⟩ :=
      lookup_processRelation_self (pre.foldl processRelation []) r
    obtain ⟨c2, h2, hn2, hp2⟩ := foldl_preserves_name_parent post r.company_id hpost
      (processRelation (pre.foldl processRelation []) r) c1 h1
    exact ⟨c2, h2, by rw [hn2, hn1], by rw [hp2, hp1]⟩
  · intro X hne hcid href
    rw [get_company_relations,
      foldl_phantom_none records X hne hcid [] rfl]
    have hnonempty : ¬ namedChildren X records = [] := by
      obtain ⟨q, hq, hqp⟩ := href
      simp only [namedChildren, List.map_eq_nil_iff, List.filter_eq_nil_iff]
      intro hall
      exact absurd hqp (by simpa using hall q hq)
    rw [if_neg hnonempty]

/-- Witness for C4: part (a) on a stream where `R1` is referenced before its
own record; part (b) on the spec's scenario with two children of `R1`. -/
theorem claim_c4_witness :
    (∃ c, lookup (get_company_relations
          [⟨"C1", "Name1", "R1"⟩, ⟨"R1", "RName", "S1"⟩]) "R1" = some c ∧
        c.name = some "RName" ∧ c.parent_id = normParent "S1") ∧
    lookup (get_company_relations
        [⟨"C1", "Name1", "R1"⟩, ⟨"C3", "Name3", "R1"⟩]) "R1" =
      some ⟨"R1", none, none,
        namedChildren "R1" [⟨"C1", "Name1", "R1"⟩, ⟨"C3", "Name3", "R1"⟩]⟩ :=
  ⟨(claim_c4_forward_references _).1 [⟨"C1", "Name1", "R1"⟩] ⟨"R1", "RName", "S1"⟩ []
      rfl ⟨⟨"C1", "Name1", "R1"⟩, by decide, by decide⟩ (by simp),
   (claim_c4_forward_references _).2 "R1" (by decide) (by simp)
      ⟨⟨"C1", "Name1", "R1"⟩, by decide, by decide⟩⟩

theorem get_root_succ (companies : Graph) (fuel : Nat) (cid : String) :
    get_root_company_id companies (fuel + 1) cid =
      match lookup companies cid with
      | none => some (Except.error (LandErr.unknownCompany cid))
      | some company =>
        match company.parent_id with
        | some pid => get_root_company_id companies fuel pid
        | none => some (Except.ok cid) := rfl

theorem get_root_none_key (companies : Graph) (fuel : Nat) (cid : String)
    (h : lookup companies cid = none) :
    get_root_company_id companies (fuel + 1) cid =
      some (Except.error (LandErr.unknownCompany cid)) := by
  rw [get_root_succ, h]

theorem get_root_some_key (companies : Graph) (fuel : Nat) (cid : String)
    (c : Company) (h : lookup companies cid = some c) :
    get_root_company_id companies (fuel + 1) cid =
      match c.parent_id with
      | some pid => get_root_company_id companies fuel pid
      | none => some (Except.ok cid) := by
  rw [get_root_succ, h]

theorem get_root_parent_none (companies : Graph) (fuel : Nat) (cid : String)
    (c : Company) (h : lookup companies cid = some c) (hp : c.parent_id = none) :
    get_root_company_id companies (fuel + 1) cid = some (Except.ok cid) := by
  rw [get_root_some_key companies fuel cid c h, hp]

theorem get_root_parent_some (companies : Graph) (fuel : Nat) (cid : String)
    (c : Company) (pid : String) (h : lookup companies cid = some c)
    (hp : c.parent_id = some pid) :
    get_root_company_id companies (fuel + 1) cid =
      get_root_company_id companies fuel pid := by
  rw [get_root_some_key companies fuel cid c h, hp]

theorem get_root_ok_root (companies : Graph) :
    ∀ (fuel : Nat) (cid rid : String),
      get_root_company_id companies fuel cid = some (Except.ok rid) →
      ∃ c, lookup companies rid = some c ∧ c.parent_id = none := by
  intro fuel
  induction fuel with
  | zero =>
      intro cid rid h
      cases h
  | succ f ih =>
      intro cid rid h
      cases hl : lookup companies cid with
      | none =>
          rw [get_root_none_key companies f cid hl] at h
          simp at h
      | some company =>
          cases hp : company.parent_id with
          | some pid =>
              rw [get_root_parent_some companies f cid company pid hl hp] at h
              exact ih pid rid h
          | none =>
              rw [get_root_parent_none companies f cid company hl hp] at h
              have hr : cid = rid := Except.ok.inj (Option.some.inj h)
              exact ⟨company, by rw [← hr]; exact hl, hp⟩

theorem get_root_terminates (g : Graph) (m : String → Nat)
    (hm : ParentMeasureDecreases g m) :
    ∀ (n : Nat) (cid : String), m cid ≤ n → cid ∈ keys g →
      get_root_company_id g (n + 1) cid ≠ none := by
  intro n
  induction n with
  | zero =>
      intro cid hle hmem
      cases hl : lookup g cid with
      | none =>
          rw [get_root_none_key g 0 cid hl]
          simp
      | some c =>
          cases hp : c.parent_id with
          | some pid =>
              have := hm cid c pid hl hp
              omega
          | none =>
              rw [get_root_parent_none g 0 cid c hl hp]
              simp
  | succ n ih =>
      intro cid hle hmem
      cases hl : lookup g cid with
      | none =>
          rw [get_root_none_key g (n + 1) cid hl]
          simp
      | some c =>
          cases hp : c.parent_id with
          | some pid =>
              rw [get_root_parent_some g (n + 1) cid c pid hl hp]
              have hlt := hm cid c pid hl hp
              by_cases hpm : pid ∈ keys g
              · exact ih pid (by omega) hpm
              · rw [← lookup_eq_none_iff] at hpm
                rw [get_root_none_key g n pid hpm]
                simp
          | none =>
              rw [get_root_parent_none g (n + 1) cid c hl hp]
              simp

/-- Claim C8: `resolve_root` applied to a company whose node has absent
`parent_id` returns that id unchanged, and `resolve_root` is idempotent:
resolving the id it returned yields that id again. -/
theorem claim_c8_resolve_root_base_and_idempotent :
    (∀ (companies : Graph) (fuel : Nat) (cid : String) (c : Company),
        lookup companies cid = some c → c.parent_id = none →
        get_root_company_id companies (fuel + 1) cid = some (Except.ok cid)) ∧
    (∀ (companies : Graph) (fuel fuel' : Nat) (cid rid : String),
        get_root_company_id companies fuel cid = some (Except.ok rid) →
        get_root_company_id companies (fuel' + 1) rid = some (Except.ok rid)) := by
  have base : ∀ (companies : Graph) (fuel : Nat) (cid : String) (c : Company),
      lookup companies cid = some c → c.parent_id = none →
      get_root_company_id companies (fuel + 1) cid = some (Except.ok cid) :=
    fun companies fuel cid c hc hp => get_root_parent_none companies fuel cid c hc hp
  refine ⟨base, ?_⟩
  intro companies fuel fuel' cid rid h
  obtain ⟨c, hc, hp⟩ := get_root_ok_root companies fuel cid rid h
  exact base companies fuel' rid c hc hp

/-- Witness for C8 on the two-node chain B → A. -/
theorem claim_c8_witness :
    get_root_company_id
        [("A", ⟨"A", none, some "NA", []⟩), ("B", ⟨"B", some "A", some "NB", []⟩)]
        1 "A" = some (Except.ok "A") ∧
    get_root_company_id
        [("A", ⟨"A", none, some "NA", []⟩), ("B", ⟨"B", some "A", some "NB", []⟩)]
        5 "A" = some (Except.ok "A") :=
  ⟨claim_c8_resolve_root_base_and_idempotent.1
      [("A", ⟨"A", none, some "NA", []⟩), ("B", ⟨"B", some "A", some "NB", []⟩)]
      0 "A" ⟨"A", none, some "NA", []⟩ rfl rfl,
   claim_c8_resolve_root_base_and_idempotent.2
      [("A", ⟨"A", none, some "NA", []⟩), ("B", ⟨"B", some "A", some "NB", []⟩)]
      2 4 "B" "A" rfl⟩

/-- Claim C9: if the parent links admit a strictly decreasing measure (no
cycles, every parent chain finite) then `resolve_root` terminates for every
id present in the graph; and on a graph with a cyclic parent reference the
recursion never finishes, whatever the fuel. -/
theorem claim_c9_resolve_root_termination :
    (∀ (g : Graph) (m : String → Nat), ParentMeasureDecreases g m →
        ∀ cid ∈ keys g, ∃ fuel, get_root_company_id g fuel cid ≠ none) ∧
    (∀ fuel : Nat,
        get_root_company_id [("A", ⟨"A", some "A", none, []⟩)] fuel "A" = none) := by
  constructor
  · intro g m hm cid hmem
    exact ⟨m cid + 1, get_root_terminates g m hm (m cid) cid (Nat.le_refl _) hmem⟩
  · intro fuel
    induction fuel with
    | zero => rfl
    | succ f ih => exact ih

/-- Witness for C9 on a one-node acyclic graph with the constant measure. -/
theorem claim_c9_witness :
    ∃ fuel, get_root_company_id [("A", ⟨"A", none, none, []⟩)] fuel "A" ≠ none :=
  claim_c9_resolve_root_termination.1 [("A", ⟨"A", none, none, []⟩)] (fun _ => 0)
    (by
      intro k c pid hl hp
      simp only [lookup] at hl
      by_cases hk : ("A" : String) = k
      · rw [if_pos hk] at hl
        rw [← Option.some.inj hl] at hp
        simp at hp
      · rw [if_neg hk] at hl
        cases hl)
    "A" (by simp [keys])

theorem format_node_succ (tree : Graph) (company_land : LandIndex)
    (target_company_id : String) (fuel : Nat) (root_company_id : String) (level : Nat) :
    format_node tree company_land target_company_id (fuel + 1) root_company_id level =
      match lookup tree root_company_id with
      | none => some (Except.error (LandErr.unknownCompany root_company_id))
      | some company =>
        match company.children_ids.foldl
            (childFold tree company_land target_company_id fuel (level + 1))
            (some (Except.ok ("", directParcels company_land root_company_id))) with
        | some (Except.ok (output, total_parcels)) =>
            some (Except.ok
              ((if level = 0 then "" else strRepeat level "| " ++ "- ") ++
                company.id ++ "; " ++ optName company.name ++ "; owner of " ++
                toString total_parcels ++ " land parcels" ++ "\n" ++ output,
               total_parcels))
        | other => other := rfl

example :
    format_node [] [] "t" 1 "A" 0 =
      some (Except.error (LandErr.unknownCompany "A")) := rfl

example :
    format_node [("A", ⟨"A", none, some "Company A", []⟩)]
      [("A", ["v", "w"])] "t" 1 "A" 0 =
      some (Except.ok ("A; Company A; owner of 2 land parcels\n", 2)) := rfl

example :
    format_tree
      [("A", ⟨"A", none, some "Company A", ["B"]⟩),
       ("B", ⟨"B", some "A", some "Company B", ["C"]⟩),
       ("C", ⟨"C", some "B", some "Company C", []⟩)]
      [("A", ["v"]), ("C", ["v", "v"])] "A" "C" 3 =
      some (Except.ok
        ("A; Company A; owner of 3 land parcels\n| - B; Company B; owner of 2 land parcels\n| | - C; Company C; owner of 2 land parcels\n")) := rfl

theorem format_node_none_key (tree : Graph) (company_land : LandIndex)
    (target : String) (fuel : Nat) (cid : String) (level : Nat)
    (h : lookup tree cid = none) :
    format_node tree company_land target (fuel + 1) cid level =
      some (Except.error (LandErr.unknownCompany cid)) := by
  rw [format_node_succ, h]

theorem format_node_some_key (tree : Graph) (company_land : LandIndex)
    (target : String) (fuel : Nat) (cid : String) (level : Nat) (c : Company)
    (h : lookup tree cid = some c) :
    format_node tree company_land target (fuel + 1) cid level =
      match c.children_ids.foldl
          (childFold tree company_land target fuel (level + 1))
          (some (Except.ok ("", directParcels company_land cid))) with
      | some (Except.ok (output, total_parcels)) =>
          some (Except.ok
            ((if level = 0 then "" else strRepeat level "| " ++ "- ") ++
              c.id ++ "; " ++ optName c.name ++ "; owner of " ++
              toString total_parcels ++ " land parcels" ++ "\n" ++ output,
             total_parcels))
      | other => other := by
  rw [format_node_succ, h]

/-- Claim C5: the `target_company_id` argument of `format_tree` is accepted
but has no effect: any two targets give the same output, the whole subtree
under `root_company_id` is always expanded. -/
theorem claim_c5_target_id_has_no_effect (tree : Graph) (company_land : LandIndex)
    (root_company_id t1 t2 : String) (fuel : Nat) :
    format_tree tree company_land root_company_id t1 fuel =
      format_tree tree company_land root_company_id t2 fuel := by
  have hnode : ∀ (fuel : Nat) (cid : String) (level : Nat),
      format_node tree company_land t1 fuel cid level =
        format_node tree company_land t2 fuel cid level := by
    intro fuel
    induction fuel with
    | zero => intro cid level; rfl
    | succ f ih =>
        intro cid level
        have hstep : ∀ (acc : FmtResult) (k : String),
            childFold tree company_land t1 f (level + 1) acc k =
              childFold tree company_land t2 f (level + 1) acc k := by
          intro acc k
          rcases acc with _ | e
          · rfl
          · rcases e with e | p
            · rfl
            · obtain ⟨out, tot⟩ := p
              show (match format_node tree company_land t1 f k (level + 1) with
                    | some (Except.ok p) => some (Except.ok (out ++ p.1, tot + p.2))
                    | other => other) =
                  (match format_node tree company_land t2 f k (level + 1) with
                    | some (Except.ok p) => some (Except.ok (out ++ p.1, tot + p.2))
                    | other => other)
              rw [ih k (level + 1)]
        have hfold : ∀ (kids : List String) (acc : FmtResult),
            kids.foldl (childFold tree company_land t1 f (level + 1)) acc =
              kids.foldl (childFold tree company_land t2 f (level + 1)) acc := by
          intro kids
          induction kids with
          | nil => intro acc; rfl
          | cons k ks ihk =>
              intro acc
              rw [List.foldl_cons, List.foldl_cons, hstep acc k, ihk]
        cases hl : lookup tree cid with
        | none =>
            rw [format_node_none_key tree company_land t1 f cid level hl,
              format_node_none_key tree company_land t2 f cid level hl]
        | some c =>
            rw [format_node_some_key tree company_land t1 f cid level c hl,
              format_node_some_key tree company_land t2 f cid level c hl,
              hfold c.children_ids
                (some (Except.ok ("", directParcels company_land cid)))]
  rw [format_tree, format_tree, hnode fuel root_company_id 0]

/-- Claim C6: a lookup of a company id that is not a key of the graph fails
with `UnknownCompanyError`, both in the Root Resolver and in the Tree
Formatter's root lookup. -/
theorem claim_c6_unknown_company_error (g : Graph) (company_land : LandIndex)
    (cid target : String) (fuel : Nat) (h : cid ∉ keys g) :
    get_root_company_id g (fuel + 1) cid =
      some (Except.error (LandErr.unknownCompany cid)) ∧
    format_tree g company_land cid target (fuel + 1) =
      some (Except.error (LandErr.unknownCompany cid)) := by
  rw [← lookup_eq_none_iff] at h
  refine ⟨get_root_none_key g fuel cid h, ?_⟩
  rw [format_tree, format_node_none_key g company_land target fuel cid 0 h]
  rfl

/-- Witness for C6 on the empty graph. -/
theorem claim_c6_witness :
    get_root_company_id [] 1 "A" =
      some (Except.error (LandErr.unknownCompany "A")) ∧
    format_tree [] [] "A" "T" 1 =
      some (Except.error (LandErr.unknownCompany "A")) :=
  claim_c6_unknown_company_error [] [] "A" "T" 0 (by simp [keys])

theorem seqOption_cons {α : Type} (o : Option α) (os : List (Option α)) :
    seqOption (o :: os) =
      match o, seqOption os with
      | some a, some rest => some (a :: rest)
      | _, _ => none := rfl

theorem strAppendAssoc (a b c : String) : (a ++ b) ++ c = a ++ (b ++ c) :=
  String.ext (by simp [String.data_append, List.append_assoc])

theorem endsNl_append (a s : String) (h : ∃ w, s = w ++ "\n") :
    ∃ w, a ++ s = w ++ "\n" := by
  obtain ⟨w, rfl⟩ := h
  exact ⟨a ++ w, (strAppendAssoc a w "\n").symm⟩

theorem strConcat_ends_nl :
    ∀ l : List String, (∀ q ∈ l, ∃ w, q = w ++ "\n") →
      strConcat l = "" ∨ ∃ w, strConcat l = w ++ "\n" := by
  intro l
  induction l with
  | nil => exact fun _ => Or.inl rfl
  | cons q l' ih =>
      intro h
      right
      have hq := h q (List.mem_cons_self q l')
      have hrest := ih (fun x hx => h x (List.mem_cons_of_mem q hx))
      show ∃ w, q ++ strConcat l' = w ++ "\n"
      rcases hrest with he | hw
      · rw [he, String.append_empty]
        exact hq
      · exact endsNl_append q _ hw

theorem childFold_from_none (tree : Graph) (company_land : LandIndex)
    (target : String) (fuel level : Nat) :
    ∀ kids : List String,
      kids.foldl (childFold tree company_land target fuel level) none = none := by
  intro kids
  induction kids with
  | nil => rfl
  | cons k ks ih => exact ih

theorem childFold_from_err (tree : Graph) (company_land : LandIndex)
    (target : String) (fuel level : Nat) (e : LandErr) :
    ∀ kids : List String,
      kids.foldl (childFold tree company_land target fuel level)
        (some (Except.error e)) = some (Except.error e) := by
  intro kids
  induction kids with
  | nil => rfl
  | cons k ks ih => exact ih

theorem childFold_ok_step (tree : Graph) (company_land : LandIndex)
    (target : String) (fuel level : Nat) (out : String) (tot : Nat) (k : String) :
    childFold tree company_land target fuel level (some (Except.ok (out, tot))) k =
      match format_node tree company_land target fuel k level with
      | some (Except.ok p) => some (Except.ok (out ++ p.1, tot + p.2))
      | other => other := rfl

theorem childFold_ok_none (tree : Graph) (company_land : LandIndex)
    (target : String) (fuel level : Nat) (out : String) (tot : Nat) (k : String)
    (h : format_node tree company_land target fuel k level = none) :
    childFold tree company_land target fuel level (some (Except.ok (out, tot))) k =
      none := by
  rw [childFold_ok_step, h]

theorem childFold_ok_err (tree : Graph) (company_land : LandIndex)
    (target : String) (fuel level : Nat) (out : String) (tot : Nat) (k : String)
    (e : LandErr)
    (h : format_node tree company_land target fuel k level = some (Except.error e)) :
    childFold tree company_land target fuel level (some (Except.ok (out, tot))) k =
      some (Except.error e) := by
  rw [childFold_ok_step, h]

theorem childFold_ok_ok (tree : Graph) (company_land : LandIndex)
    (target : String) (fuel level : Nat) (out : String) (tot : Nat) (k : String)
    (p : String × Nat)
    (h : format_node tree company_land target fuel k level = some (Except.ok p)) :
    childFold tree company_land target fuel level (some (Except.ok (out, tot))) k =
      some (Except.ok (out ++ p.1, tot + p.2)) := by
  rw [childFold_ok_step, h]

theorem foldl_childFold_ok (tree : Graph) (company_land : LandIndex)
    (target : String) (fuel level : Nat) :
    ∀ (kids : List String) (out0 : String) (tot0 : Nat) (s : String) (t : Nat),
      kids.foldl (childFold tree company_land target fuel level)
          (some (Except.ok (out0, tot0))) = some (Except.ok (s, t)) →
      ∃ ps : List (String × Nat),
        List.Forall₂ (fun k p =>
          format_node tree company_land target fuel k level = some (Except.ok p))
          kids ps ∧
        s = out0 ++ strConcat (ps.map Prod.fst) ∧
        t = tot0 + (ps.map Prod.snd).sum := by
  intro kids
  induction kids with
  | nil =>
      intro out0 tot0 s t h
      simp only [List.foldl_nil, Option.some.injEq, Except.ok.injEq,
        Prod.mk.injEq] at h
      obtain ⟨rfl, rfl⟩ := h
      exact ⟨[], List.Forall₂.nil,
        by simp [strConcat, String.append_empty], by simp⟩
  | cons k ks ih =>
      intro out0 tot0 s t h
      rw [List.foldl_cons] at h
      cases hk : format_node tree company_land target fuel k level with
      | none =>
          rw [childFold_ok_none tree company_land target fuel level out0 tot0 k hk,
            childFold_from_none] at h
          exact Option.noConfusion h
      | some e =>
          cases e with
          | error err =>
              rw [childFold_ok_err tree company_land target fuel level out0 tot0 k err hk,
                childFold_from_err] at h
              simp at h
          | ok p =>
              rw [childFold_ok_ok tree company_land target fuel level out0 tot0 k p hk] at h
              obtain ⟨ps', hfa, hs, ht⟩ := ih (out0 ++ p.1) (tot0 + p.2) s t h
              refine ⟨p :: ps', List.Forall₂.cons hk hfa, ?_, ?_⟩
              · rw [hs, List.map_cons]
                show (out0 ++ p.1) ++ strConcat (ps'.map Prod.fst) =
                  out0 ++ (p.1 ++ strConcat (ps'.map Prod.fst))
                exact strAppendAssoc _ _ _
              · rw [ht, List.map_cons]
                show (tot0 + p.2) + (ps'.map Prod.snd).sum =
                  tot0 + (p.2 + (ps'.map Prod.snd).sum)
                omega

theorem specSubtreeTotal_succ (tree : Graph) (company_land : LandIndex)
    (fuel : Nat) (cid : String) :
    specSubtreeTotal tree company_land (fuel + 1) cid =
      match lookup tree cid with
      | none => none
      | some c =>
        match seqOption (c.children_ids.map
            (fun k => specSubtreeTotal tree company_land fuel k)) with
        | none => none
        | some childTotals =>
            some (directParcels company_land cid + childTotals.sum) := rfl

theorem specSubtreeTotal_some_key (tree : Graph) (company_land : LandIndex)
    (fuel : Nat) (cid : String) (c : Company)
    (hc : lookup tree cid = some c) :
    specSubtreeTotal tree company_land (fuel + 1) cid =
      match seqOption (c.children_ids.map
          (fun k => specSubtreeTotal tree company_land fuel k)) with
      | none => none
      | some childTotals =>
          some (directParcels company_land cid + childTotals.sum) := by
  rw [specSubtreeTotal_succ, hc]

theorem specSubtreeTotal_compute (tree : Graph) (company_land : LandIndex)
    (fuel : Nat) (cid : String) (c : Company) (ts : List Nat)
    (hc : lookup tree cid = some c)
    (hs : seqOption (c.children_ids.map
        (fun k => specSubtreeTotal tree company_land fuel k)) = some ts) :
    specSubtreeTotal tree company_land (fuel + 1) cid =
      some (directParcels company_land cid + ts.sum) := by
  rw [specSubtreeTotal_some_key tree company_land fuel cid c hc, hs]

theorem specBlock_succ (tree : Graph) (company_land : LandIndex)
    (fuel : Nat) (cid : String) (depth : Nat) :
    specBlock tree company_land (fuel + 1) cid depth =
      match lookup tree cid, specSubtreeTotal tree company_land (fuel + 1) cid with
      | some c, some total =>
        match seqOption (c.children_ids.map
            (fun k => specBlock tree company_land fuel k (depth + 1))) with
        | some blocks => some (specLine c depth total ++ strConcat blocks)
        | none => none
      | _, _ => none := rfl

theorem specBlock_some_key (tree : Graph) (company_land : LandIndex)
    (fuel : Nat) (cid : String) (depth : Nat) (c : Company) (total : Nat)
    (hc : lookup tree cid = some c)
    (ht : specSubtreeTotal tree company_land (fuel + 1) cid = some total) :
    specBlock tree company_land (fuel + 1) cid depth =
      match seqOption (c.children_ids.map
          (fun k => specBlock tree company_land fuel k (depth + 1))) with
      | some blocks => some (specLine c depth total ++ strConcat blocks)
      | none => none := by
  rw [specBlock_succ, hc, ht]

theorem specBlock_compute (tree : Graph) (company_land : LandIndex)
    (fuel : Nat) (cid : String) (depth : Nat) (c : Company) (total : Nat)
    (blocks : List String)
    (hc : lookup tree cid = some c)
    (ht : specSubtreeTotal tree company_land (fuel + 1) cid = some total)
    (hb : seqOption (c.children_ids.map
        (fun k => specBlock tree company_land fuel k (depth + 1))) = some blocks) :
    specBlock tree company_land (fuel + 1) cid depth =
      some (specLine c depth total ++ strConcat blocks) := by
  rw [specBlock_some_key tree company_land fuel cid depth c total hc ht, hb]

theorem spec_children_of_forall₂ (tree : Graph) (company_land : LandIndex)
    (f level : Nat) :
    ∀ (kids : List String) (ps : List (String × Nat)),
      List.Forall₂ (fun k p =>
        specSubtreeTotal tree company_land f k = some p.2 ∧
        specBlock tree company_land f k level = some p.1 ∧
        ∃ w, p.1 = w ++ "\n") kids ps →
      seqOption (kids.map (fun k => specSubtreeTotal tree company_land f k)) =
        some (ps.map Prod.snd) ∧
      seqOption (kids.map (fun k => specBlock tree company_land f k level)) =
        some (ps.map Prod.fst) ∧
      (∀ q ∈ ps.map Prod.fst, ∃ w, q = w ++ "\n") := by
  intro kids ps hfa
  induction hfa with
  | nil => exact ⟨rfl, rfl, by simp⟩
  | @cons k p kids' ps' hkp hfa ihh =>
      obtain ⟨h1, h2, h3⟩ := hkp
      obtain ⟨i1, i2, i3⟩ := ihh
      refine ⟨?_, ?_, ?_⟩
      · rw [List.map_cons, List.map_cons, seqOption_cons, h1, i1]
      · rw [List.map_cons, List.map_cons, seqOption_cons, h2, i2]
      · intro q hq
        rw [List.map_cons] at hq
        rcases List.mem_cons.mp hq with hq' | hq'
        · rw [hq']
          exact h3
        · exact i3 q hq'

theorem specLine_ends_nl (c : Company) (depth total : Nat) :
    ∃ w, specLine c depth total = w ++ "\n" :=
  ⟨(if depth = 0 then "" else strRepeat depth "| " ++ "- ") ++
    c.id ++ "; " ++ optName c.name ++ "; owner of " ++ toString total ++
    " land parcels", rfl⟩

theorem format_node_refines (tree : Graph) (company_land : LandIndex) (target : String) :
    ∀ (fuel : Nat) (cid : String) (level : Nat) (s : String) (total : Nat),
      format_node tree company_land target fuel cid level = some (Except.ok (s, total)) →
      specSubtreeTotal tree company_land fuel cid = some total ∧
      specBlock tree company_land fuel cid level = some s ∧
      (∃ p, s = p ++ "\n") ∧
      (∃ c rest, lookup tree cid = some c ∧ s = specLine c level total ++ rest) := by
  intro fuel
  induction fuel with
  | zero =>
      intro cid level s total h
      cases h
  | succ f ih =>
      intro cid level s total h
      cases hl : lookup tree cid with
      | none =>
          rw [format_node_none_key tree company_land target f cid level hl] at h
          simp at h
      | some c =>
          rw [format_node_some_key tree company_land target f cid level c hl] at h
          split at h
          · rename_i output total_parcels heq
            simp only [Option.some.injEq, Except.ok.injEq, Prod.mk.injEq] at h
            obtain ⟨hE, htp⟩ := h
            obtain ⟨ps, hfa, hout, htot⟩ :=
              foldl_childFold_ok tree company_land target f (level + 1)
                c.children_ids "" (directParcels company_land cid)
                output total_parcels heq
            rw [String.empty_append] at hout
            have hall : List.Forall₂ (fun k p =>
                specSubtreeTotal tree company_land f k = some p.2 ∧
                specBlock tree company_land f k (level + 1) = some p.1 ∧
                ∃ w, p.1 = w ++ "\n") c.children_ids ps :=
              hfa.imp (fun k p hk =>
                ⟨(ih _ _ _ _ hk).1, (ih _ _ _ _ hk).2.1, (ih _ _ _ _ hk).2.2.1⟩)
            obtain ⟨htotals, hblocks, hnl⟩ :=
              spec_children_of_forall₂ tree company_land f (level + 1)
                c.children_ids ps hall
            have hTot : specSubtreeTotal tree company_land (f + 1) cid = some total := by
              rw [specSubtreeTotal_compute tree company_land f cid c
                (ps.map Prod.snd) hl htotals, ← htot, htp]
            have hBlock0 : specBlock tree company_land (f + 1) cid level =
                some (specLine c level total ++ strConcat (ps.map Prod.fst)) :=
              specBlock_compute tree company_land f cid level c total
                (ps.map Prod.fst) hl hTot hblocks
            have hseq : s = specLine c level total ++ strConcat (ps.map Prod.fst) := by
              rw [← hE, hout, ← htp, specLine]
            have hends : ∃ p, s = p ++ "\n" := by
              rw [hseq]
              rcases strConcat_ends_nl (ps.map Prod.fst) hnl with he | hw
              · rw [he, String.append_empty]
                exact specLine_ends_nl c level total
              · exact endsNl_append _ _ hw
            exact ⟨hTot, by rw [hBlock0, hseq], hends,
              ⟨c, strConcat (ps.map Prod.fst), rfl, hseq⟩⟩
          · rename_i other hne
            exact absurd h (hne s total)

/-- Claim C1: whenever the formatter returns a block for a node, the parcel
total it displays on the node's line is the node's direct parcel count plus
the sum of its children's subtree totals, computed recursively over
`children_ids` (the quantity `specSubtreeTotal`), and the node's emitted line
shows exactly that total. -/
theorem claim_c1_aggregate_totals (tree : Graph) (company_land : LandIndex)
    (target : String) (fuel : Nat) (cid : String) (level : Nat) (s : String)
    (total : Nat)
    (h : format_node tree company_land target fuel cid level =
      some (Except.ok (s, total))) :
    specSubtreeTotal tree company_land fuel cid = some total ∧
    ∃ c rest, lookup tree cid = some c ∧ s = specLine c level total ++ rest :=
  ⟨(format_node_refines tree company_land target fuel cid level s total h).1,
   (format_node_refines tree company_land target fuel cid level s total h).2.2.2⟩

/-- Claim C2: the string returned by `format_tree` is, node for node, the
node's own line followed by its children's full blocks in `children_ids`
order (the spec-side `specBlock` shape, which also fixes the indent prefix and
the line template), and the whole output ends with a trailing newline. -/
theorem claim_c2_output_structure (tree : Graph) (company_land : LandIndex)
    (root_company_id target : String) (fuel : Nat) (s : String)
    (h : format_tree tree company_land root_company_id target fuel =
      some (Except.ok s)) :
    specBlock tree company_land fuel root_company_id 0 = some s ∧
    ∃ p, s = p ++ "\n" := by
  rw [format_tree] at h
  rcases hfn : format_node tree company_land target fuel root_company_id 0 with _ | e
  · rw [hfn] at h
    cases h
  · rcases e with err | pr
    · rw [hfn] at h
      simp [Except.map] at h
    · obtain ⟨so, tn⟩ := pr
      rw [hfn] at h
      simp only [Option.map_some', Except.map, Option.some.injEq,
        Except.ok.injEq] at h
      rw [← h]
      have hr := format_node_refines tree company_land target fuel
        root_company_id 0 so tn hfn
      exact ⟨hr.2.1, hr.2.2.1⟩

/-- Witness for C1 on the A → B → C chain of the repository's test suite. -/
theorem claim_c1_witness :
    specSubtreeTotal
        [("A", ⟨"A", none, some "Company A", ["B"]⟩),
         ("B", ⟨"B", some "A", some "Company B", ["C"]⟩),
         ("C", ⟨"C", some "B", some "Company C", []⟩)]
        [("A", ["v"]), ("C", ["v", "v"])] 3 "A" = some 3 ∧
    ∃ c rest,
      lookup
        [("A", ⟨"A", none, some "Company A", ["B"]⟩),
         ("B", ⟨"B", some "A", some "Company B", ["C"]⟩),
         ("C", ⟨"C", some "B", some "Company C", []⟩)] "A" = some c ∧
      "A; Company A; owner of 3 land parcels\n| - B; Company B; owner of 2 land parcels\n| | - C; Company C; owner of 2 land parcels\n" =
        specLine c 0 3 ++ rest :=
  claim_c1_aggregate_totals
    [("A", ⟨"A", none, some "Company A", ["B"]⟩),
     ("B", ⟨"B", some "A", some "Company B", ["C"]⟩),
     ("C", ⟨"C", some "B", some "Company C", []⟩)]
    [("A", ["v"]), ("C", ["v", "v"])] "C" 3 "A" 0
    "A; Company A; owner of 3 land parcels\n| - B; Company B; owner of 2 land parcels\n| | - C; Company C; owner of 2 land parcels\n"
    3 rfl

/-- Witness for C2 on the A → B → C chain of the repository's test suite. -/
theorem claim_c2_witness :
    specBlock
        [("A", ⟨"A", none, some "Company A", ["B"]⟩),
         ("B", ⟨"B", some "A", some "Company B", ["C"]⟩),
         ("C", ⟨"C", some "B", some "Company C", []⟩)]
        [("A", ["v"]), ("C", ["v", "v"])] 3 "A" 0 =
      some "A; Company A; owner of 3 land parcels\n| - B; Company B; owner of 2 land parcels\n| | - C; Company C; owner of 2 land parcels\n" ∧
    ∃ p,
      "A; Company A; owner of 3 land parcels\n| - B; Company B; owner of 2 land parcels\n| | - C; Company C; owner of 2 land parcels\n" =
        p ++ "\n" :=
  claim_c2_output_structure
    [("A", ⟨"A", none, some "Company A", ["B"]⟩),
     ("B", ⟨"B", some "A", some "Company B", ["C"]⟩),
     ("C", ⟨"C", some "B", some "Company C", []⟩)]
    [("A", ["v"]), ("C", ["v", "v"])] "A" "C" 3
    "A; Company A; owner of 3 land parcels\n| - B; Company B; owner of 2 land parcels\n| | - C; Company C; owner of 2 land parcels\n"
    rfl

theorem read_csv_cons (arity : Nat) (l : List String) (ls : List (List String)) :
    read_csv arity (l :: ls) =
      if l.length = arity then
        match read_csv arity ls with
        | Except.ok rs => Except.ok (l :: rs)
        | Except.error e => Except.error e
      else Except.error LandErr.malformedRecord := rfl

/-- Claim C7: every line with the right field count becomes a record with its
fields unchanged and unvalidated, and any line with the wrong field count
makes the reader fail with `MalformedRecordError` at that line's construction,
whatever comes after it. -/
theorem claim_c7_record_arity (arity : Nat) :
    (∀ lines : List (List String), (∀ l ∈ lines, l.length = arity) →
        read_csv arity lines = Except.ok lines) ∧
    (∀ (pre : List (List String)) (l : List String) (post : List (List String)),
        (∀ q ∈ pre, q.length = arity) → l.length ≠ arity →
        read_csv arity (pre ++ l :: post) =
          Except.error LandErr.malformedRecord) := by
  constructor
  · intro lines h
    induction lines with
    | nil => rfl
    | cons l ls ih =>
        have hl := h l (List.mem_cons_self l ls)
        have hrest := ih (fun q hq => h q (List.mem_cons_of_mem l hq))
        rw [read_csv_cons, if_pos hl, hrest]
  · intro pre
    induction pre with
    | nil =>
        intro l post _ hne
        rw [List.nil_append, read_csv_cons, if_neg hne]
    | cons q pre' ih =>
        intro l post hpre hne
        have hq := hpre q (List.mem_cons_self q pre')
        rw [List.cons_append, read_csv_cons, if_pos hq,
          ih l post (fun x hx => hpre x (List.mem_cons_of_mem q hx)) hne]

/-- Witness for C7 at arity 2, mirroring the land-ownership record shape. -/
theorem claim_c7_witness :
    read_csv 2 [["T100018863440", "R590980645905"], ["T100030485625", "C498567266942"]] =
      Except.ok [["T100018863440", "R590980645905"], ["T100030485625", "C498567266942"]] ∧
    read_csv 2 [["T100018863440", "R590980645905"], ["onlyonefield"]] =
      Except.error LandErr.malformedRecord :=
  ⟨(claim_c7_record_arity 2).1
      [["T100018863440", "R590980645905"], ["T100030485625", "C498567266942"]] (by simp),
   (claim_c7_record_arity 2).2
      [["T100018863440", "R590980645905"]] ["onlyonefield"] [] (by simp) (by decide)⟩

end Landtree
